import Mathlib

/-!
# Verification of the `ansimple` playbook engine

A shallow embedding of the playbook-resolution and task-execution engine of
the `ansimple` repository (`src/main.rs`, `src/playbook/mod.rs`,
`src/task/mod.rs`), together with proofs of the specified properties.

Modelling conventions:
* Rust structs become Lean structures with the same field names
  (`include` is a Lean keyword, so the `Playbook.include` field is `include_`).
* The external collaborators (the ssh2 session, the local file system, the
  tera renderer, the table of loadable playbook files) are passed in as
  explicit parameters: a `Session` record of the authentication/command
  responses of the remote endpoint, and functions for file systems,
  rendering and playbook loading.  A remote host's file system is a map
  `String → Option String` from path to contents.
* Fallible Rust code (`?`, `unwrap`, `expect`) is modelled with `Except`:
  `unwrap`/`expect` panics and `?` errors both abort the surrounding
  processing, which is what the engine does (a panic inside a worker is
  re-raised by `handle.await.unwrap()`).
* `regex::Regex::replace_all` is modelled for literal search patterns
  (no regex metacharacters, replacement without capture references):
  `replaceAll` performs the left-to-right, non-overlapping global
  replacement that the `regex` crate performs on such patterns.  Theorems
  that depend on replacement behaviour restrict to a nonempty pattern.
* The per-host workers spawned by `Playbook::process` share no mutable
  state and target distinct remote endpoints (one per address), so the
  concurrent join is modelled by running the matching hosts in order,
  each against its own address's remote file system.
* `async_recursion` through `include` has no termination guarantee in the
  source (no cycle guard), so `Playbook.process` takes a fuel parameter;
  running out of fuel models non-termination as the `outOfFuel` error.
-/

namespace Ansimple

/-- Models `playbook::GlobalConfig`: the default `user`/`key` credential pair. -/
structure GlobalConfig where
  user : String
  key : String
deriving DecidableEq

/-- Models `playbook::Host`: an inventory entry with optional credential overrides. -/
structure Host where
  address : String
  user : Option String
  key : Option String
deriving DecidableEq

/-- Models `playbook::HostConfig`: the inventory consumed by `process`. -/
structure HostConfig where
  global_config : GlobalConfig
  hosts : List Host
deriving DecidableEq

/-- Models `playbook::Include`: one entry of a playbook's `include` list. -/
structure Include where
  file : String
  tags : Option (List String)
  when : Option String
deriving DecidableEq

/-- Models `task::TaskKind`: the tagged union of task kinds.  Each variant
carries the `result` buffer field that serde skips (it starts out `""` and
`Shell` appends captured stdout to it during execution). -/
inductive TaskKind where
  | shell (name command result : String)
  | copy (name src dest : String) (remote_src : Option Bool) (result : String)
  | template (name src dest : String) (variables_ : List (String × String)) (result : String)
  | searchReplace (name path search replace result : String)
deriving DecidableEq

/-- Models `task::Task`: a `TaskKind` plus the optional `tags`, `register`
and `when` envelope fields. -/
structure Task where
  kind : TaskKind
  tags : Option (List String)
  register : Option String
  when : Option String
deriving DecidableEq

/-- Models `playbook::Playbook`.  `include_` is the Rust `include` field. -/
structure Playbook where
  name : Option String
  include_ : Option (List Include)
  hosts : List String
  local_config : Option GlobalConfig
  tasks : List Task
deriving DecidableEq

/-- Models `task::TaskResult`: the result taxonomy, each variant carrying the
originating host and task kind.  `Failed` is Rust's `_Failed`. -/
inductive TaskResult where
  | Changed (host : Host) (kind : TaskKind)
  | Unchanged (host : Host) (kind : TaskKind)
  | Failed (host : Host) (kind : TaskKind)
deriving DecidableEq

/-- Models `TaskResult::register_value`: the lowercase tag string stored by
the `register` mechanism. -/
def TaskResult.register_value : TaskResult → String
  | .Changed _ _ => "changed"
  | .Unchanged _ _ => "unchanged"
  | .Failed _ _ => "failed"

/-- The result is a `Changed`. -/
def TaskResult.isChanged : TaskResult → Bool
  | .Changed _ _ => true
  | _ => false

/-- The result is an `Unchanged`. -/
def TaskResult.isUnchanged : TaskResult → Bool
  | .Unchanged _ _ => true
  | _ => false

/-- The result is a `Failed` (Rust `_Failed`). -/
def TaskResult.isFailed : TaskResult → Bool
  | .Failed _ _ => true
  | _ => false

/-- Models `tera::Context` as an association list; `insert` shadows earlier
bindings for the same key, as tera's `Context::insert` overwrites. -/
abbrev Ctx := List (String × String)

/-- Models `tera::Context::insert`: bind `key` to `val`, shadowing any
earlier binding. -/
def ctxInsert (key val : String) (c : Ctx) : Ctx := (key, val) :: c

/-- Observational lookup in a `Ctx` (first binding wins, i.e. the most
recently inserted one). -/
def ctxLookup (key : String) : Ctx → Option String
  | [] => none
  | (k, v) :: rest => if k = key then some v else ctxLookup key rest

/-- Error kinds surfaced by task execution (`Box<dyn Error>` in the source,
with the spec's taxonomy as the constructors). -/
inductive ExecErr where
  | authError
  | transportError
  | ioError
  | renderError
  | patternError
deriving DecidableEq

/-- Errors that abort a whole `process` call: a failed playbook load
(`expect("failed to read playbook")`), a task-execution error
(`expect("failed to execute task")`, re-raised through the join), or fuel
exhaustion, which models the unguarded include recursion never returning. -/
inductive ProcErr where
  | loadError
  | execError (e : ExecErr)
  | outOfFuel
deriving DecidableEq

/-- A remote host's file system: path to contents. -/
abbrev RemoteWorld := String → Option String

/-- The remote file systems of all hosts, keyed by address. -/
abbrev Worlds := String → RemoteWorld

/-- Write `contents` at `path` (sftp `create` + `write_all`: truncate and
replace). -/
def updateFile (w : RemoteWorld) (path contents : String) : RemoteWorld :=
  fun q => if q = path then some contents else w q

/-- Models the ssh2 `Session` of one remote endpoint as the responses of the
external collaborator: the outcome of `userauth_agent` per user, the
`authenticated()` flag after that attempt, the outcome of
`userauth_pubkey_file` per user/key, and the stdout captured from
`channel.exec` per command. -/
structure Session where
  agentAuth : String → Except ExecErr Unit
  agentAuthenticated : String → Bool
  pubkeyAuth : String → String → Except ExecErr Unit
  shellOut : String → Except ExecErr String

/-- The authentication sequence of `TaskKind::execute_on_host` (task/mod.rs
lines 147-151): `userauth_agent(user)?`, then, only if the session is not
authenticated, `userauth_pubkey_file(user, None, key, None)?`. -/
def authenticate (sess : Session) (user key : String) : Except ExecErr Unit :=
  match sess.agentAuth user with
  | .error e => .error e
  | .ok _ =>
    if sess.agentAuthenticated user then .ok ()
    else sess.pubkeyAuth user key

/-- Models `host.user.as_ref().unwrap_or(&global_config.user)`. -/
def effectiveUser (host : Host) (global_config : GlobalConfig) : String :=
  host.user.getD global_config.user

/-- Models `host.key.as_ref().unwrap_or(&global_config.key)`. -/
def effectiveKey (host : Host) (global_config : GlobalConfig) : String :=
  host.key.getD global_config.key

/-- The task-local rendering context of a `Template` task: the incoming
context is cloned and the task's `variables_` are inserted into the clone
(task/mod.rs lines 199-202). -/
def mergeVars (variables_ : List (String × String)) (context : Ctx) : Ctx :=
  variables_.foldl (fun c kv => ctxInsert kv.1 kv.2 c) context

/-- Left-to-right, non-overlapping global replacement of the literal pattern
`pat` by `rep`, with explicit fuel (one unit per character examined); this is
`regex::Regex::replace_all` restricted to literal patterns.  An empty
pattern is never matched here (theorems about replacement assume a nonempty
pattern). -/
def replaceAllList (pat rep : List Char) : Nat → List Char → List Char
  | 0, s => s
  | _ + 1, [] => []
  | fuel + 1, c :: rest =>
    if pat ≠ [] ∧ pat.isPrefixOf (c :: rest) then
      rep ++ replaceAllList pat rep fuel (rest.drop (pat.length - 1))
    else
      c :: replaceAllList pat rep fuel rest

/-- Models `re.replace_all(&contents, replace)` for a literal `search`
pattern. -/
def replaceAll (search replace contents : String) : String :=
  String.mk (replaceAllList search.data replace.data contents.data.length contents.data)

/-- Models `TaskKind::execute_on_host` (task/mod.rs lines 133-239): resolve
effective credentials, authenticate, then dispatch by kind.  `localFS` is
the local file system (`fs::read`/`read_file`), `renderTpl` the tera
renderer (`render_template`), `w` the remote host's file system.  Returns
the task result, the (possibly mutated, for `Shell`) kind, and the updated
remote file system.  The `local_config` parameter is Rust's `_local_config`:
accepted and never used.  `TcpStream::connect` and `handshake` are
`unwrap`ed in the source (panic on failure, not an error return); the model
covers the executions where the TCP connection and handshake succeed. -/
def TaskKind.execute_on_host (k : TaskKind) (host : Host) (context : Ctx)
    (global_config : GlobalConfig) (_local_config : Option GlobalConfig)
    (sess : Session) (localFS : String → Option String)
    (renderTpl : String → Ctx → Except ExecErr String)
    (w : RemoteWorld) : Except ExecErr (TaskResult × TaskKind × RemoteWorld) :=
  let user := effectiveUser host global_config
  let key := effectiveKey host global_config
  match authenticate sess user key with
  | .error e => .error e
  | .ok _ =>
    match k with
    | .shell name command result =>
      match sess.shellOut command with
      | .error e => .error e
      | .ok out =>
        let k2 := TaskKind.shell name command (result ++ out)
        .ok (.Changed host k2, k2, w)
    | .copy _ src dest remote_src _ =>
      if remote_src = some true then
        match w src with
        | none => .error .transportError
        | some contents => .ok (.Changed host k, k, updateFile w dest contents)
      else
        match localFS src with
        | none => .error .ioError
        | some contents => .ok (.Changed host k, k, updateFile w dest contents)
    | .template _ src dest variables_ _ =>
      match localFS src with
      | none => .error .ioError
      | some tpl =>
        match renderTpl tpl (mergeVars variables_ context) with
        | .error e => .error e
        | .ok rendered => .ok (.Changed host k, k, updateFile w dest rendered)
    | .searchReplace _ path search replace _ =>
      match w path with
      | none => .error .transportError
      | some contents =>
        let new_contents := replaceAll search replace contents
        let w2 := updateFile w path new_contents
        if contents = new_contents then .ok (.Unchanged host k, k, w2)
        else .ok (.Changed host k, k, w2)

/-- Models `Task::when` (task/mod.rs lines 63-65): the conditional guard is
a stub that ignores the variables and always returns `true`. -/
def Task.whenEval (_t : Task) (_vars : Ctx) : Bool :=
  true

/-- The tag-filtering decision of `Playbook::process` (playbook/mod.rs lines
120-128): with no requested tags nothing is skipped; with requested tags a
task is skipped when it has no `tags` field, or when every one of its tags
is absent from the requested list. -/
def tagSkip (specified_tags : Option (List String)) (t : Task) : Bool :=
  match specified_tags with
  | none => false
  | some specified =>
    match t.tags with
    | some task_tags => task_tags.all (fun tag => ! specified.contains tag)
    | none => true

/-- The external collaborators of one `process` run: the loadable playbook
files (`Playbook::try_from` on an include path), one ssh2 session per host
address, the local file system, and the tera renderer. -/
structure Env where
  playbooks : String → Option Playbook
  sessions : String → Session
  localFS : String → Option String
  renderTpl : String → Ctx → Except ExecErr String

/-- One observed task execution: which task ran against which host, with
which result (the START/CHANGED/UNCHANGED log pair of the source). -/
structure Event where
  host : Host
  task : Task
  result : TaskResult
deriving DecidableEq

/-- One iteration of the per-host worker loop of `Playbook::process`
(playbook/mod.rs lines 115-138): skip when the `when` guard is false; skip
when the tag filter excludes the task; otherwise execute the task's kind on
the host and, if the task has a `register` key, insert the result's
register value into the context. -/
def runTask (host : Host) (global_config : GlobalConfig)
    (local_config : Option GlobalConfig) (specified_tags : Option (List String))
    (env : Env) (t : Task) (context : Ctx) (w : RemoteWorld) :
    Except ExecErr (Ctx × RemoteWorld × List Event) :=
  if t.whenEval context = false then .ok (context, w, [])
  else if tagSkip specified_tags t then .ok (context, w, [])
  else
    match t.kind.execute_on_host host context global_config local_config
        (env.sessions host.address) env.localFS env.renderTpl w with
    | .error e => .error e
    | .ok (result, _, w2) =>
      let context2 :=
        match t.register with
        | some register_key => ctxInsert register_key result.register_value context
        | none => context
      .ok (context2, w2, [⟨host, t, result⟩])

/-- The whole worker of one host (the `task::spawn` body, playbook/mod.rs
lines 114-140): run the tasks in declaration order, threading the context
and the host's remote file system; a task-execution error aborts (the
source's `expect("failed to execute task")` panic, re-raised at the join). -/
def runHost (host : Host) (global_config : GlobalConfig)
    (local_config : Option GlobalConfig) (specified_tags : Option (List String))
    (env : Env) : List Task → Ctx → RemoteWorld →
    Except ProcErr (Ctx × RemoteWorld × List Event)
  | [], context, w => .ok (context, w, [])
  | t :: rest, context, w =>
    match runTask host global_config local_config specified_tags env t context w with
    | .error e => .error (.execError e)
    | .ok (context2, w2, evs) =>
      match runHost host global_config local_config specified_tags env rest context2 w2 with
      | .error e => .error e
      | .ok (context3, w3, evs2) => .ok (context3, w3, evs ++ evs2)

/-- Models the host matching of `Playbook::process` (playbook/mod.rs lines
95-99): the inventory hosts whose `address` is contained in the playbook's
`hosts` list (exact string membership). -/
def matchingHosts (p : Playbook) (host_config : HostConfig) : List Host :=
  host_config.hosts.filter (fun host => p.hosts.contains host.address)

/-- The per-host workers of one `process` level (playbook/mod.rs lines
101-146).  Each matching host gets a clone of the freshly created context
(`Context::new()`, i.e. `[]`) and of the playbook, and runs its tasks
against its own address's remote file system.  The workers share no state
and target distinct addresses, so the concurrent join is modelled by
running them in order. -/
def runHosts (p : Playbook) (global_config : GlobalConfig)
    (specified_tags : Option (List String)) (env : Env) :
    List Host → Worlds → Except ProcErr (List Event × Worlds)
  | [], ws => .ok ([], ws)
  | host :: rest, ws =>
    match runHost host global_config p.local_config specified_tags env
        p.tasks [] (ws host.address) with
    | .error e => .error e
    | .ok (_, w2, evs) =>
      let ws2 : Worlds := fun a => if a = host.address then w2 else ws a
      match runHosts p global_config specified_tags env rest ws2 with
      | .error e => .error e
      | .ok (evs2, ws3) => .ok (evs ++ evs2, ws3)

/-- The own-tasks phase of one `process` call: match the hosts and run one
worker per matching host. -/
def runLevel (p : Playbook) (host_config : HostConfig)
    (specified_tags : Option (List String)) (env : Env) (ws : Worlds) :
    Except ProcErr (List Event × Worlds) :=
  runHosts p host_config.global_config specified_tags env
    (matchingHosts p host_config) ws

/-- The include loop of `Playbook::process` (playbook/mod.rs lines 84-93),
abstracted over the recursive call `f`: for every include entry in order,
load the referenced playbook (a missing or malformed file is the
`expect("failed to read playbook")` abort) and run it to completion before
the next entry.  Only the entry's `file` is consulted; its `tags` and
`when` fields are never read. -/
def processIncludesWith
    (f : Playbook → Worlds → Except ProcErr (List Event × Worlds))
    (playbooks : String → Option Playbook) :
    List Include → Worlds → Except ProcErr (List Event × Worlds)
  | [], ws => .ok ([], ws)
  | inc :: rest, ws =>
    match playbooks inc.file with
    | none => .error .loadError
    | some pb =>
      match f pb ws with
      | .error e => .error e
      | .ok (evs, ws2) =>
        match processIncludesWith f playbooks rest ws2 with
        | .error e => .error e
        | .ok (evs2, ws3) => .ok (evs ++ evs2, ws3)

/-- Models `Playbook::process` (playbook/mod.rs lines 82-147): first, when
the playbook has an `include` list, every included playbook is loaded and
recursively processed to completion, with the same inventory and the same
requested tags; then the playbook's own tasks run, one worker per matching
host.  The source recursion has no cycle guard, so the model spends one
unit of `fuel` per nesting level; `outOfFuel` models non-termination. -/
def Playbook.process (fuel : Nat) (p : Playbook) (host_config : HostConfig)
    (specified_tags : Option (List String)) (env : Env) (ws : Worlds) :
    Except ProcErr (List Event × Worlds) :=
  match fuel with
  | 0 => .error .outOfFuel
  | fuel' + 1 =>
    let incRes :=
      match p.include_ with
      | none => Except.ok ([], ws)
      | some incs =>
        processIncludesWith
          (fun pb ws2 => Playbook.process fuel' pb host_config specified_tags env ws2)
          env.playbooks incs ws
    match incRes with
    | .error e => .error e
    | .ok (evs, ws2) =>
      match runLevel p host_config specified_tags env ws2 with
      | .error e => .error e
      | .ok (evs2, ws3) => .ok (evs ++ evs2, ws3)

/-- The task result of a successful execution, `none` on error. -/
def execResult : Except ExecErr (TaskResult × TaskKind × RemoteWorld) → Option TaskResult
  | .ok (r, _, _) => some r
  | .error _ => none

/-- The error of a failed execution, `none` on success. -/
def execErr : Except ExecErr (TaskResult × TaskKind × RemoteWorld) → Option ExecErr
  | .ok _ => none
  | .error e => some e

/-- The remote file system after a successful execution (the empty file
system on error; only used after success). -/
def execWorld : Except ExecErr (TaskResult × TaskKind × RemoteWorld) → RemoteWorld
  | .ok (_, _, w) => w
  | .error _ => fun _ => none

/-- The events of a `process`/`runHosts`-shaped outcome (empty on error). -/
def procEvents : Except ProcErr (List Event × Worlds) → List Event
  | .ok (evs, _) => evs
  | .error _ => []

/-- The context of a successful worker-loop step, `none` on error. -/
def stepCtx : Except ExecErr (Ctx × RemoteWorld × List Event) → Option Ctx
  | .ok (c, _, _) => some c
  | .error _ => none

/-- The events of a worker-loop step (empty on error). -/
def stepEvents : Except ExecErr (Ctx × RemoteWorld × List Event) → List Event
  | .ok (_, _, evs) => evs
  | .error _ => []

/-- The final context of a successful host worker, `none` on error. -/
def hostCtx : Except ProcErr (Ctx × RemoteWorld × List Event) → Option Ctx
  | .ok (c, _, _) => some c
  | .error _ => none

/-- The events of a host worker (empty on error). -/
def hostEvents : Except ProcErr (Ctx × RemoteWorld × List Event) → List Event
  | .ok (_, _, evs) => evs
  | .error _ => []

theorem ctxLookup_insert_self (key val : String) (c : Ctx) :
    ctxLookup key (ctxInsert key val c) = some val := by
  simp [ctxLookup, ctxInsert]

theorem ctxLookup_insert_ne (key key2 val : String) (c : Ctx) (h : key2 ≠ key) :
    ctxLookup key (ctxInsert key2 val c) = ctxLookup key c := by
  simp [ctxLookup, ctxInsert, h]

theorem register_value_cases (r : TaskResult) :
    r.register_value = "changed" ∨ r.register_value = "unchanged" ∨
      r.register_value = "failed" := by
  cases r <;> simp [TaskResult.register_value]

/-- C2: with no requested tag filter every task passes the tag filter; with
a filter `f`, a task is skipped iff its `tags` field is absent or every one
of its tags is absent from `f`; in particular a task with no tags is always
skipped under a non-empty filter. -/
theorem tag_filter_semantics (t : Task) (f : List String) :
    tagSkip none t = false ∧
    (tagSkip (some f) t = true ↔
      (t.tags = none ∨ ∃ l, t.tags = some l ∧ ∀ tag ∈ l, tag ∉ f)) ∧
    (t.tags = none → f ≠ [] → tagSkip (some f) t = true) := by
  refine ⟨rfl, ?_, ?_⟩
  · unfold tagSkip
    cases htags : t.tags with
    | none => simp
    | some l => simp [List.all_eq_true]
  · intro htags _
    simp [tagSkip, htags]

/-- Witness for `tag_filter_semantics` at a concrete untagged task and the
filter `["deploy"]`. -/
theorem tag_filter_semantics_witness :
    tagSkip (some ["deploy"]) ⟨.shell "s" "c" "", none, none, none⟩ = true :=
  (tag_filter_semantics ⟨.shell "s" "c" "", none, none, none⟩ ["deploy"]).2.2
    rfl (by decide)

/-- C5: on success, `Shell`, `Copy` and `Template` tasks always report
`Changed`; a `SearchReplace` task reports `Unchanged` iff the global
substitution left the file's contents byte-identical. -/
theorem result_tag_by_kind (host : Host) (ctx : Ctx) (gc : GlobalConfig)
    (lc : Option GlobalConfig) (sess : Session) (lf : String → Option String)
    (rt : String → Ctx → Except ExecErr String) (w : RemoteWorld) :
    (∀ n c res r,
      execResult ((TaskKind.shell n c res).execute_on_host host ctx gc lc sess lf rt w) =
        some r → r.isChanged = true) ∧
    (∀ n s d rs res r,
      execResult ((TaskKind.copy n s d rs res).execute_on_host host ctx gc lc sess lf rt w) =
        some r → r.isChanged = true) ∧
    (∀ n s d vs res r,
      execResult ((TaskKind.template n s d vs res).execute_on_host host ctx gc lc sess lf rt w) =
        some r → r.isChanged = true) ∧
    (∀ n p s rep res contents r, w p = some contents →
      execResult ((TaskKind.searchReplace n p s rep res).execute_on_host host ctx gc lc sess lf rt w) =
        some r →
      (r.isUnchanged = true ↔ replaceAll s rep contents = contents)) := by
  refine ⟨?_, ?_, ?_, ?_⟩
  · intro n c res r h
    simp only [TaskKind.execute_on_host] at h
    rcases hA : authenticate sess (effectiveUser host gc) (effectiveKey host gc) with e | u
    · rw [hA] at h
      simp [execResult] at h
    · rw [hA] at h
      rcases hS : sess.shellOut c with e | out
      · rw [hS] at h
        simp [execResult] at h
      · rw [hS] at h
        simp only [execResult, Option.some.injEq] at h
        subst h
        rfl
  · intro n s d rs res r h
    simp only [TaskKind.execute_on_host] at h
    rcases hA : authenticate sess (effectiveUser host gc) (effectiveKey host gc) with e | u
    · rw [hA] at h
      simp [execResult] at h
    · rw [hA] at h
      by_cases hr : rs = some true
      · rw [if_pos hr] at h
        rcases hW : w s with _ | contents
        · rw [hW] at h
          simp [execResult] at h
        · rw [hW] at h
          simp only [execResult, Option.some.injEq] at h
          subst h
          rfl
      · rw [if_neg hr] at h
        rcases hL : lf s with _ | contents
        · rw [hL] at h
          simp [execResult] at h
        · rw [hL] at h
          simp only [execResult, Option.some.injEq] at h
          subst h
          rfl
  · intro n s d vs res r h
    simp only [TaskKind.execute_on_host] at h
    rcases hA : authenticate sess (effectiveUser host gc) (effectiveKey host gc) with e | u
    · rw [hA] at h
      simp [execResult] at h
    · rw [hA] at h
      rcases hL : lf s with _ | tpl
      · rw [hL] at h
        simp [execResult] at h
      · rw [hL] at h
        dsimp only at h
        rcases hR : rt tpl (mergeVars vs ctx) with e | rendered
        · rw [hR] at h
          simp [execResult] at h
        · rw [hR] at h
          simp only [execResult, Option.some.injEq] at h
          subst h
          rfl
  · intro n p s rep res contents r hw h
    simp only [TaskKind.execute_on_host] at h
    rcases hA : authenticate sess (effectiveUser host gc) (effectiveKey host gc) with e | u
    · rw [hA] at h
      simp [execResult] at h
    · rw [hA, hw] at h
      dsimp only at h
      by_cases hc : contents = replaceAll s rep contents
      · rw [if_pos hc] at h
        simp only [execResult, Option.some.injEq] at h
        subst h
        simp [TaskResult.isUnchanged, hc.symm]
      · rw [if_neg hc] at h
        simp only [execResult, Option.some.injEq] at h
        subst h
        simp only [TaskResult.isUnchanged]
        constructor
        · intro hfalse
          exact absurd hfalse (by simp)
        · intro hh
          exact absurd hh.symm hc

/-- Witness for `result_tag_by_kind`: a concrete `Shell` execution reports
`Changed`, and a concrete no-op `SearchReplace` reports `Unchanged`. -/
theorem result_tag_by_kind_witness :
    (TaskResult.Changed ⟨"h1", none, none⟩ (.shell "s" "c" "out")).isChanged = true ∧
    ((TaskResult.Unchanged ⟨"h1", none, none⟩ (.searchReplace "sr" "f" "a" "a" "")).isUnchanged = true ↔
      replaceAll "a" "a" "b" = "b") := by
  have h := result_tag_by_kind ⟨"h1", none, none⟩ []
    ⟨"root", "id"⟩ none
    ⟨fun _ => .ok (), fun _ => true, fun _ _ => .ok (), fun _ => .ok "out"⟩
    (fun _ => none) (fun t _ => .ok t) (fun p => if p = "f" then some "b" else none)
  exact ⟨h.1 "s" "c" "" _ (by decide),
    h.2.2.2 "sr" "f" "a" "a" "" "b" _ (by decide) (by decide)⟩

/-- C10: a task skipped by the filter layer (false `when` guard or tag
exclusion) leaves the context and the remote file system untouched,
produces no execution event, and the worker proceeds to the next task. -/
theorem skipped_task_frame (host : Host) (gc : GlobalConfig)
    (lc : Option GlobalConfig) (tags : Option (List String)) (env : Env)
    (t : Task) (ctx : Ctx) (w : RemoteWorld) :
    (t.whenEval ctx = false ∨ tagSkip tags t = true →
      runTask host gc lc tags env t ctx w = .ok (ctx, w, [])) ∧
    (∀ rest, tagSkip tags t = true →
      runHost host gc lc tags env (t :: rest) ctx w =
        runHost host gc lc tags env rest ctx w) := by
  constructor
  · intro h
    rcases h with h | h
    · simp [runTask, h]
    · simp [runTask, h]
  · intro rest h
    have hstep : runTask host gc lc tags env t ctx w = .ok (ctx, w, []) := by
      simp [runTask, h]
    simp only [runHost, hstep]
    cases hrest : runHost host gc lc tags env rest ctx w with
    | error e => rfl
    | ok x => simp

/-- Witness for `skipped_task_frame`: a concrete untagged task under the
filter `["deploy"]` is skipped with no effect. -/
theorem skipped_task_frame_witness :
    runTask ⟨"h1", none, none⟩ ⟨"root", "id"⟩ none (some ["deploy"])
      ⟨fun _ => none, fun _ => ⟨fun _ => .ok (), fun _ => true, fun _ _ => .ok (), fun _ => .ok ""⟩,
        fun _ => none, fun t _ => .ok t⟩
      ⟨.shell "s" "c" "", none, some "r", none⟩ [] (fun _ => none) =
      .ok ([], fun _ => none, []) :=
  (skipped_task_frame ⟨"h1", none, none⟩ ⟨"root", "id"⟩ none (some ["deploy"])
      ⟨fun _ => none, fun _ => ⟨fun _ => .ok (), fun _ => true, fun _ _ => .ok (), fun _ => .ok ""⟩,
        fun _ => none, fun t _ => .ok t⟩
      ⟨.shell "s" "c" "", none, some "r", none⟩ [] (fun _ => none)).1
    (Or.inr (by decide))

theorem execute_template_ok (host : Host) (ctx : Ctx) (gc : GlobalConfig)
    (lc : Option GlobalConfig) (sess : Session) (lf : String → Option String)
    (rt : String → Ctx → Except ExecErr String) (w : RemoteWorld)
    (n s d : String) (vs : List (String × String)) (res : String)
    (r : TaskResult) (k2 : TaskKind) (w2 : RemoteWorld)
    (h : (TaskKind.template n s d vs res).execute_on_host host ctx gc lc sess lf rt w =
      .ok (r, k2, w2)) :
    r = .Changed host (.template n s d vs res) := by
  simp only [TaskKind.execute_on_host] at h
  rcases hA : authenticate sess (effectiveUser host gc) (effectiveKey host gc) with e | u
  · rw [hA] at h
    simp at h
  · rw [hA] at h
    dsimp only at h
    rcases hL : lf s with _ | tpl
    · rw [hL] at h
      simp at h
    · rw [hL] at h
      dsimp only at h
      rcases hR : rt tpl (mergeVars vs ctx) with e | rendered
      · rw [hR] at h
        simp at h
      · rw [hR] at h
        simp only [Except.ok.injEq, Prod.mk.injEq] at h
        exact h.1.symm

theorem execute_ok_not_failed (k : TaskKind) (host : Host) (ctx : Ctx)
    (gc : GlobalConfig) (lc : Option GlobalConfig) (sess : Session)
    (lf : String → Option String) (rt : String → Ctx → Except ExecErr String)
    (w : RemoteWorld) (r : TaskResult) (k2 : TaskKind) (w2 : RemoteWorld)
    (h : k.execute_on_host host ctx gc lc sess lf rt w = .ok (r, k2, w2)) :
    r.isFailed = false := by
  simp only [TaskKind.execute_on_host] at h
  rcases hA : authenticate sess (effectiveUser host gc) (effectiveKey host gc) with e | u
  · rw [hA] at h
    cases k <;> simp at h
  · rw [hA] at h
    cases k with
    | shell n c res =>
      dsimp only at h
      rcases hS : sess.shellOut c with e | out
      · rw [hS] at h
        simp at h
      · rw [hS] at h
        simp only [Except.ok.injEq, Prod.mk.injEq] at h
        rw [← h.1]
        rfl
    | copy n s d rs res =>
      dsimp only at h
      by_cases hr : rs = some true
      · rw [if_pos hr] at h
        rcases hW : w s with _ | contents
        · rw [hW] at h
          simp at h
        · rw [hW] at h
          simp only [Except.ok.injEq, Prod.mk.injEq] at h
          rw [← h.1]
          rfl
      · rw [if_neg hr] at h
        rcases hL : lf s with _ | contents
        · rw [hL] at h
          simp at h
        · rw [hL] at h
          simp only [Except.ok.injEq, Prod.mk.injEq] at h
          rw [← h.1]
          rfl
    | template n s d vs res =>
      dsimp only at h
      rcases hL : lf s with _ | tpl
      · rw [hL] at h
        simp at h
      · rw [hL] at h
        dsimp only at h
        rcases hR : rt tpl (mergeVars vs ctx) with e | rendered
        · rw [hR] at h
          simp at h
        · rw [hR] at h
          simp only [Except.ok.injEq, Prod.mk.injEq] at h
          rw [← h.1]
          rfl
    | searchReplace n p s rep res =>
      dsimp only at h
      rcases hW : w p with _ | contents
      · rw [hW] at h
        simp at h
      · rw [hW] at h
        dsimp only at h
        by_cases hc : contents = replaceAll s rep contents
        · rw [if_pos hc] at h
          simp only [Except.ok.injEq, Prod.mk.injEq] at h
          rw [← h.1]
          rfl
        · rw [if_neg hc] at h
          simp only [Except.ok.injEq, Prod.mk.injEq] at h
          rw [← h.1]
          rfl

/-- C9: a `Template` task renders against a copy of the incoming context
with the task's variables merged in, and the shared per-host context is
unchanged by that merge: after the task, the worker's context is the
incoming one, extended only by the `register` binding (always `"changed"`
for a template), independent of the task-local variables. -/
theorem template_ctx_overlay (host : Host) (gc : GlobalConfig)
    (lc : Option GlobalConfig) (tags : Option (List String)) (env : Env)
    (ctx : Ctx) (w : RemoteWorld) (n s d : String)
    (vs : List (String × String)) (res : String) :
    (∀ (sess : Session) (lf : String → Option String)
        (rt : String → Ctx → Except ExecErr String) (tpl : String),
      authenticate sess (effectiveUser host gc) (effectiveKey host gc) = .ok () →
      lf s = some tpl →
      (TaskKind.template n s d vs res).execute_on_host host ctx gc lc sess lf rt w =
        match rt tpl (mergeVars vs ctx) with
        | .error e => .error e
        | .ok rendered =>
          .ok (.Changed host (.template n s d vs res), .template n s d vs res,
            updateFile w d rendered)) ∧
    (∀ (t : Task) (ctx2 : Ctx), t.kind = .template n s d vs res →
      tagSkip tags t = false →
      stepCtx (runTask host gc lc tags env t ctx w) = some ctx2 →
      ctx2 = match t.register with
        | some key => ctxInsert key "changed" ctx
        | none => ctx) := by
  constructor
  · intro sess lf rt tpl hauth hlf
    simp only [TaskKind.execute_on_host]
    rw [hauth, hlf]
  · intro t ctx2 hk htag hstep
    simp only [runTask, Task.whenEval, htag, hk] at hstep
    rw [if_neg (by simp : ¬(true = false)), if_neg (by simp : ¬(false = true))] at hstep
    rcases hE : (TaskKind.template n s d vs res).execute_on_host host ctx gc lc
        (env.sessions host.address) env.localFS env.renderTpl w with e | trip
    · rw [hE] at hstep
      simp [stepCtx] at hstep
    · obtain ⟨r, k2, w2⟩ := trip
      rw [hE] at hstep
      have hr := execute_template_ok host ctx gc lc (env.sessions host.address)
        env.localFS env.renderTpl w n s d vs res r k2 w2 hE
      subst hr
      simp only [stepCtx, TaskResult.register_value, Option.some.injEq] at hstep
      exact hstep.symm

/-- Witness for `template_ctx_overlay`: a concrete template task with a
task-local variable and a `register` key leaves the shared context equal to
the incoming one plus only the register binding. -/
theorem template_ctx_overlay_witness :
    ([("r", "changed"), ("x", "1")] : Ctx) = ctxInsert "r" "changed" [("x", "1")] := by
  have h := (template_ctx_overlay ⟨"h1", none, none⟩ ⟨"root", "id"⟩ none none
    ⟨fun _ => none, fun _ => ⟨fun _ => .ok (), fun _ => true, fun _ _ => .ok (), fun _ => .ok ""⟩,
      fun p => if p = "tpl" then some "T" else none, fun t _ => .ok t⟩
    [("x", "1")] (fun _ => none) "t" "tpl" "dst" [("v", "2")] "").2
    ⟨.template "t" "tpl" "dst" [("v", "2")] "", none, some "r", none⟩
    [("r", "changed"), ("x", "1")] rfl rfl (by decide)
  exact h

/-- A session whose agent authentication attempt itself errors while
public-key authentication would succeed. -/
def agentFailSession : Session where
  agentAuth := fun _ => .error .authError
  agentAuthenticated := fun _ => false
  pubkeyAuth := fun _ _ => .ok ()
  shellOut := fun _ => .ok ""

/-- Counterexample to C8 as stated: when the agent attempt itself returns
an error, `execute_on_host` errors immediately even though the public-key
fallback was never attempted and would have succeeded — the error is not
reserved for the case where both methods are exhausted. -/
theorem auth_not_both_exhausted :
    execErr ((TaskKind.shell "s" "c" "").execute_on_host ⟨"h1", none, none⟩ []
      ⟨"root", "id"⟩ none agentFailSession (fun _ => none) (fun t _ => .ok t)
      (fun _ => none)) = some .authError ∧
    agentFailSession.pubkeyAuth "root" "id" = .ok () := by
  constructor
  · rfl
  · rfl

/-- C8 (amended): authentication attempts agent auth for the effective user
first; an error from the agent attempt itself aborts `execute_on_host`
immediately, without trying public-key auth; only when the agent attempt
completes with the session still unauthenticated is public-key file auth
attempted with the effective key, and its error is then the error of
`execute_on_host`.  The effective user/key are the host overrides when
present, else the `global_config` defaults, and `local_config` is never
applied. -/
theorem auth_policy (sess : Session) (host : Host) (gc : GlobalConfig)
    (ctx : Ctx) (k : TaskKind) (lf : String → Option String)
    (rt : String → Ctx → Except ExecErr String) (w : RemoteWorld) :
    (∀ user key, authenticate sess user key = .ok () ↔
      (sess.agentAuth user = .ok () ∧
        (sess.agentAuthenticated user = true ∨ sess.pubkeyAuth user key = .ok ()))) ∧
    (∀ user key e, authenticate sess user key = .error e ↔
      (sess.agentAuth user = .error e ∨
        (sess.agentAuth user = .ok () ∧ sess.agentAuthenticated user = false ∧
          sess.pubkeyAuth user key = .error e))) ∧
    (∀ e lc, authenticate sess (effectiveUser host gc) (effectiveKey host gc) = .error e →
      k.execute_on_host host ctx gc lc sess lf rt w = .error e) ∧
    (∀ lc lc', k.execute_on_host host ctx gc lc sess lf rt w =
      k.execute_on_host host ctx gc lc' sess lf rt w) ∧
    (∀ u, host.user = some u → effectiveUser host gc = u) ∧
    (host.user = none → effectiveUser host gc = gc.user) ∧
    (∀ kk, host.key = some kk → effectiveKey host gc = kk) ∧
    (host.key = none → effectiveKey host gc = gc.key) := by
  refine ⟨?_, ?_, ?_, ?_, ?_, ?_, ?_, ?_⟩
  · intro user key
    unfold authenticate
    rcases hA : sess.agentAuth user with e | u
    · simp
    · cases u
      by_cases hF : sess.agentAuthenticated user
      · simp [hF]
      · simp [hF, Bool.not_eq_true] at hF ⊢
  · intro user key e
    unfold authenticate
    rcases hA : sess.agentAuth user with e2 | u
    · simp
    · cases u
      by_cases hF : sess.agentAuthenticated user
      · simp [hF]
      · simp [hF, Bool.not_eq_true] at hF ⊢
  · intro e lc hauth
    simp only [TaskKind.execute_on_host, hauth]
  · intro lc lc'
    rfl
  · intro u h
    simp [effectiveUser, h]
  · intro h
    simp [effectiveUser, h]
  · intro kk h
    simp [effectiveKey, h]
  · intro h
    simp [effectiveKey, h]

/-- Witness for `auth_policy`: at a concrete session whose agent attempt
errors, `execute_on_host` returns that error. -/
theorem auth_policy_witness :
    (TaskKind.shell "s2" "c2" "").execute_on_host ⟨"h2", some "adm", none⟩ []
      ⟨"root", "id"⟩ none agentFailSession (fun _ => none) (fun t _ => .ok t)
      (fun _ => none) = .error .authError :=
  (auth_policy agentFailSession ⟨"h2", some "adm", none⟩ ⟨"root", "id"⟩ []
      (.shell "s2" "c2" "") (fun _ => none) (fun t _ => .ok t)
      (fun _ => none)).2.2.1 .authError none rfl

theorem runTask_events (host : Host) (gc : GlobalConfig)
    (lc : Option GlobalConfig) (tags : Option (List String)) (env : Env)
    (t : Task) (ctx : Ctx) (w : RemoteWorld) (c2 : Ctx) (w2 : RemoteWorld)
    (evs : List Event)
    (h : runTask host gc lc tags env t ctx w = .ok (c2, w2, evs)) :
    ∀ e ∈ evs, e.host = host ∧ e.task = t ∧ e.result.isFailed = false := by
  simp only [runTask, Task.whenEval] at h
  rw [if_neg (by simp : ¬(true = false))] at h
  by_cases htag : tagSkip tags t = true
  · rw [if_pos htag] at h
    simp only [Except.ok.injEq, Prod.mk.injEq] at h
    rw [← h.2.2]
    intro e he
    simp at he
  · rw [if_neg htag] at h
    rcases hE : t.kind.execute_on_host host ctx gc lc (env.sessions host.address)
        env.localFS env.renderTpl w with e | trip
    · rw [hE] at h
      simp at h
    · obtain ⟨r, k2, w3⟩ := trip
      rw [hE] at h
      simp only [Except.ok.injEq, Prod.mk.injEq] at h
      rw [← h.2.2]
      intro e he
      simp only [List.mem_singleton] at he
      subst he
      exact ⟨rfl, rfl,
        execute_ok_not_failed t.kind host ctx gc lc (env.sessions host.address)
          env.localFS env.renderTpl w r k2 w3 hE⟩

theorem runHost_events (host : Host) (gc : GlobalConfig)
    (lc : Option GlobalConfig) (tags : Option (List String)) (env : Env) :
    ∀ (ts : List Task) (ctx : Ctx) (w : RemoteWorld) (c3 : Ctx)
      (w3 : RemoteWorld) (evs : List Event),
      runHost host gc lc tags env ts ctx w = .ok (c3, w3, evs) →
      ∀ e ∈ evs, e.host = host ∧ e.result.isFailed = false
  | [], ctx, w, c3, w3, evs, h => by
    simp only [runHost, Except.ok.injEq, Prod.mk.injEq] at h
    rw [← h.2.2]
    intro e he
    simp at he
  | t :: rest, ctx, w, c3, w3, evs, h => by
    simp only [runHost] at h
    rcases hT : runTask host gc lc tags env t ctx w with e | step
    · rw [hT] at h
      simp at h
    · obtain ⟨c1, w1, evs1⟩ := step
      rw [hT] at h
      dsimp only at h
      rcases hR : runHost host gc lc tags env rest c1 w1 with e | restr
      · rw [hR] at h
        simp at h
      · obtain ⟨cr, wr, evsr⟩ := restr
        rw [hR] at h
        simp only [Except.ok.injEq, Prod.mk.injEq] at h
        rw [← h.2.2]
        intro e he
        rcases List.mem_append.mp he with he1 | he2
        · have := runTask_events host gc lc tags env t ctx w c1 w1 evs1 hT e he1
          exact ⟨this.1, this.2.2⟩
        · exact runHost_events host gc lc tags env rest c1 w1 cr wr evsr hR e he2

theorem runHosts_events (p : Playbook) (gc : GlobalConfig)
    (tags : Option (List String)) (env : Env) :
    ∀ (hs : List Host) (ws : Worlds) (evs : List Event) (ws2 : Worlds),
      runHosts p gc tags env hs ws = .ok (evs, ws2) →
      ∀ e ∈ evs, e.host ∈ hs ∧ e.result.isFailed = false
  | [], ws, evs, ws2, h => by
    simp only [runHosts, Except.ok.injEq, Prod.mk.injEq] at h
    rw [← h.1]
    intro e he
    simp at he
  | host :: rest, ws, evs, ws2, h => by
    simp only [runHosts] at h
    rcases hH : runHost host gc p.local_config tags env p.tasks [] (ws host.address)
        with e | one
    · rw [hH] at h
      simp at h
    · obtain ⟨c1, w1, evs1⟩ := one
      rw [hH] at h
      dsimp only at h
      rcases hR : runHosts p gc tags env rest
          (fun a => if a = host.address then w1 else ws a) with e | restr
      · rw [hR] at h
        simp at h
      · obtain ⟨evsr, wsr⟩ := restr
        rw [hR] at h
        simp only [Except.ok.injEq, Prod.mk.injEq] at h
        rw [← h.1]
        intro e he
        rcases List.mem_append.mp he with he1 | he2
        · have := runHost_events host gc p.local_config tags env p.tasks []
            (ws host.address) c1 w1 evs1 hH e he1
          exact ⟨by rw [this.1]; exact List.mem_cons_self host rest, this.2⟩
        · have := runHosts_events p gc tags env rest
            (fun a => if a = host.address then w1 else ws a) evsr wsr hR e he2
          exact ⟨List.mem_cons_of_mem host this.1, this.2⟩

/-- C1: a host is selected for a playbook's own-tasks phase iff it is in
the inventory and its address is (by exact string membership) in the
playbook's `hosts` list; consequently every execution event of that phase
targets a host whose address is in `p.hosts`, and a host whose address is
not in `p.hosts` never has a task of `p` executed against it. -/
theorem host_matching (p : Playbook) (cfg : HostConfig) (h : Host) :
    (h ∈ matchingHosts p cfg ↔ h ∈ cfg.hosts ∧ h.address ∈ p.hosts) ∧
    (∀ tags env ws e, e ∈ procEvents (runLevel p cfg tags env ws) →
      e.host.address ∈ p.hosts) ∧
    (h.address ∉ p.hosts →
      ∀ tags env ws e, e ∈ procEvents (runLevel p cfg tags env ws) →
        e.host ≠ h) := by
  have hmem : ∀ e : Event, ∀ tags env ws,
      e ∈ procEvents (runLevel p cfg tags env ws) → e.host ∈ matchingHosts p cfg := by
    intro e tags env ws he
    unfold runLevel at he
    rcases hR : runHosts p cfg.global_config tags env (matchingHosts p cfg) ws
        with er | okr
    · rw [hR] at he
      simp [procEvents] at he
    · obtain ⟨evs, ws2⟩ := okr
      rw [hR] at he
      simp only [procEvents] at he
      exact (runHosts_events p cfg.global_config tags env (matchingHosts p cfg)
        ws evs ws2 hR e he).1
  have hiff : ∀ h2 : Host, h2 ∈ matchingHosts p cfg ↔ h2 ∈ cfg.hosts ∧ h2.address ∈ p.hosts := by
    intro h2
    simp [matchingHosts, List.mem_filter]
  refine ⟨hiff h, ?_, ?_⟩
  · intro tags env ws e he
    exact ((hiff e.host).mp (hmem e tags env ws he)).2
  · intro hnot tags env ws e he heq
    exact hnot (heq ▸ ((hiff e.host).mp (hmem e tags env ws he)).2)

/-- Witness for `host_matching`: with inventory `[web1]` and playbook hosts
`["web1"]` the host is selected, and the single execution event of the run
targets an address in the playbook's list. -/
theorem host_matching_witness :
    (⟨"web1", none, none⟩ : Host) ∈
      matchingHosts ⟨none, none, ["web1"], none, [⟨.shell "s" "c" "", none, none, none⟩]⟩
        ⟨⟨"root", "id"⟩, [⟨"web1", none, none⟩]⟩ ∧
    ("web1" : String) ∈ (["web1"] : List String) := by
  refine ⟨?_, by decide⟩
  have h := (host_matching
    ⟨none, none, ["web1"], none, [⟨.shell "s" "c" "", none, none, none⟩]⟩
    ⟨⟨"root", "id"⟩, [⟨"web1", none, none⟩]⟩ ⟨"web1", none, none⟩).1
  exact h.mpr ⟨by decide, by decide⟩

theorem runTask_ctx_shape (host : Host) (gc : GlobalConfig)
    (lc : Option GlobalConfig) (tags : Option (List String)) (env : Env)
    (t : Task) (ctx : Ctx) (w : RemoteWorld) (c2 : Ctx) (w2 : RemoteWorld)
    (evs : List Event)
    (h : runTask host gc lc tags env t ctx w = .ok (c2, w2, evs)) :
    c2 = ctx ∨ ∃ k v, t.register = some k ∧ c2 = ctxInsert k v ctx := by
  simp only [runTask, Task.whenEval] at h
  rw [if_neg (by simp : ¬(true = false))] at h
  by_cases htag : tagSkip tags t = true
  · rw [if_pos htag] at h
    simp only [Except.ok.injEq, Prod.mk.injEq] at h
    exact Or.inl h.1.symm
  · rw [if_neg htag] at h
    rcases hE : t.kind.execute_on_host host ctx gc lc (env.sessions host.address)
        env.localFS env.renderTpl w with e | trip
    · rw [hE] at h
      simp at h
    · obtain ⟨r, k2, w3⟩ := trip
      rw [hE] at h
      simp only [Except.ok.injEq, Prod.mk.injEq] at h
      rcases hreg : t.register with _ | k
      · rw [hreg] at h
        exact Or.inl h.1.symm
      · rw [hreg] at h
        exact Or.inr ⟨k, r.register_value, rfl, h.1.symm⟩

theorem runHost_preserves (host : Host) (gc : GlobalConfig)
    (lc : Option GlobalConfig) (tags : Option (List String)) (env : Env)
    (key : String) :
    ∀ (ts : List Task) (ctx : Ctx) (w : RemoteWorld) (c3 : Ctx)
      (w3 : RemoteWorld) (evs : List Event),
      (∀ t2 ∈ ts, t2.register ≠ some key) →
      runHost host gc lc tags env ts ctx w = .ok (c3, w3, evs) →
      ctxLookup key c3 = ctxLookup key ctx
  | [], ctx, w, c3, w3, evs, _, h => by
    simp only [runHost, Except.ok.injEq, Prod.mk.injEq] at h
    rw [← h.1]
  | t :: rest, ctx, w, c3, w3, evs, hno, h => by
    simp only [runHost] at h
    rcases hT : runTask host gc lc tags env t ctx w with e | step
    · rw [hT] at h
      simp at h
    · obtain ⟨c1, w1, evs1⟩ := step
      rw [hT] at h
      dsimp only at h
      rcases hR : runHost host gc lc tags env rest c1 w1 with e | restr
      · rw [hR] at h
        simp at h
      · obtain ⟨cr, wr, evsr⟩ := restr
        rw [hR] at h
        simp only [Except.ok.injEq, Prod.mk.injEq] at h
        have hrest := runHost_preserves host gc lc tags env key rest c1 w1 cr wr evsr
          (fun t2 ht2 => hno t2 (List.mem_cons_of_mem t ht2)) hR
        have hc1 : ctxLookup key c1 = ctxLookup key ctx := by
          rcases runTask_ctx_shape host gc lc tags env t ctx w c1 w1 evs1 hT with
            hsame | ⟨k, v, hk, hins⟩
          · rw [hsame]
          · have hk2 : k ≠ key := fun hkk =>
              hno t (List.mem_cons_self t rest) (by rw [hk, hkk])
            rw [hins]
            exact ctxLookup_insert_ne key k v ctx hk2
        rw [← h.1, hrest, hc1]

/-- C3: after a task with `register = some key` executes successfully, the
host's context binds `key` to exactly the result's lowercase tag string
(one of `"changed"`, `"unchanged"`, `"failed"`), that context is the one
threaded to the remaining tasks of the same host, the binding survives
every later task that does not itself register under `key`, and each host
worker of a level starts from the empty context cloned from the level's
fresh `Context::new`, so a registered binding is never visible to other
hosts or to an enclosing playbook level. -/
theorem register_visibility (host : Host) (gc : GlobalConfig)
    (lc : Option GlobalConfig) (tags : Option (List String)) (env : Env)
    (t : Task) (ctx : Ctx) (w : RemoteWorld) (key : String) (r : TaskResult)
    (k2 : TaskKind) (w2 : RemoteWorld) (rest : List Task)
    (htag : tagSkip tags t = false) (hreg : t.register = some key)
    (hE : t.kind.execute_on_host host ctx gc lc (env.sessions host.address)
      env.localFS env.renderTpl w = .ok (r, k2, w2)) :
    runTask host gc lc tags env t ctx w =
      .ok (ctxInsert key r.register_value ctx, w2, [⟨host, t, r⟩]) ∧
    ctxLookup key (ctxInsert key r.register_value ctx) = some r.register_value ∧
    (r.register_value = "changed" ∨ r.register_value = "unchanged" ∨
      r.register_value = "failed") ∧
    runHost host gc lc tags env (t :: rest) ctx w =
      Except.map (fun x => (x.1, x.2.1, (⟨host, t, r⟩ : Event) :: x.2.2))
        (runHost host gc lc tags env rest (ctxInsert key r.register_value ctx) w2) ∧
    ((∀ t2 ∈ rest, t2.register ≠ some key) →
      ∀ c3 w3 evs,
        runHost host gc lc tags env rest (ctxInsert key r.register_value ctx) w2 =
          .ok (c3, w3, evs) →
        ctxLookup key c3 = some r.register_value) ∧
    (∀ (p : Playbook) (gc2 : GlobalConfig) (tags2 : Option (List String))
        (h2 : Host) (hs : List Host) (ws : Worlds),
      runHosts p gc2 tags2 env (h2 :: hs) ws =
        match runHost h2 gc2 p.local_config tags2 env p.tasks [] (ws h2.address) with
        | .error e => .error e
        | .ok (_, w4, evs) =>
          match runHosts p gc2 tags2 env hs
              (fun a => if a = h2.address then w4 else ws a) with
          | .error e => .error e
          | .ok (evs2, ws3) => .ok (evs ++ evs2, ws3)) := by
  have hstep : runTask host gc lc tags env t ctx w =
      .ok (ctxInsert key r.register_value ctx, w2, [⟨host, t, r⟩]) := by
    simp only [runTask, Task.whenEval, htag, hreg]
    rw [if_neg (by simp : ¬(true = false)), if_neg (by simp : ¬(false = true)), hE]
  refine ⟨hstep, ctxLookup_insert_self key r.register_value ctx,
    register_value_cases r, ?_, ?_, ?_⟩
  · simp only [runHost, hstep]
    rcases hR : runHost host gc lc tags env rest (ctxInsert key r.register_value ctx) w2
        with e | restr
    · rfl
    · obtain ⟨cr, wr, evsr⟩ := restr
      rfl
  · intro hno c3 w3 evs hR
    have := runHost_preserves host gc lc tags env key rest
      (ctxInsert key r.register_value ctx) w2 c3 w3 evs hno hR
    rw [this, ctxLookup_insert_self]
  · intro p gc2 tags2 h2 hs ws
    rfl

/-- Witness for `register_visibility`: a concrete shell task with
`register = "r"` binds `"r"` to `"changed"` in the host's context. -/
theorem register_visibility_witness :
    runTask ⟨"h1", none, none⟩ ⟨"root", "id"⟩ none none
      ⟨fun _ => none,
        fun _ => ⟨fun _ => .ok (), fun _ => true, fun _ _ => .ok (), fun _ => .ok "hi"⟩,
        fun _ => none, fun t _ => .ok t⟩
      ⟨.shell "s" "c" "", none, some "r", none⟩ [] (fun _ => none) =
      .ok (ctxInsert "r"
            (TaskResult.Changed ⟨"h1", none, none⟩ (.shell "s" "c" "hi")).register_value [],
          (fun _ => none),
          [⟨⟨"h1", none, none⟩, ⟨.shell "s" "c" "", none, some "r", none⟩,
            .Changed ⟨"h1", none, none⟩ (.shell "s" "c" "hi")⟩]) ∧
    ctxLookup "r"
        (ctxInsert "r"
          (TaskResult.Changed ⟨"h1", none, none⟩ (.shell "s" "c" "hi")).register_value []) =
      some (TaskResult.Changed ⟨"h1", none, none⟩ (.shell "s" "c" "hi")).register_value := by
  have h := register_visibility ⟨"h1", none, none⟩ ⟨"root", "id"⟩ none none
    ⟨fun _ => none,
      fun _ => ⟨fun _ => .ok (), fun _ => true, fun _ _ => .ok (), fun _ => .ok "hi"⟩,
      fun _ => none, fun t _ => .ok t⟩
    ⟨.shell "s" "c" "", none, some "r", none⟩ [] (fun _ => none) "r"
    (.Changed ⟨"h1", none, none⟩ (.shell "s" "c" "hi"))
    (.shell "s" "c" "hi") (fun _ => none) [] rfl rfl rfl
  exact ⟨h.1, h.2.1⟩

theorem processIncludesWith_file_only
    (f : Playbook → Worlds → Except ProcErr (List Event × Worlds))
    (pbs : String → Option Playbook) :
    ∀ (incs : List Include) (tf : Include → Option (List String))
      (wf : Include → Option String) (ws : Worlds),
      processIncludesWith f pbs (incs.map fun inc => ⟨inc.file, tf inc, wf inc⟩) ws =
        processIncludesWith f pbs incs ws
  | [], _, _, _ => rfl
  | inc :: rest, tf, wf, ws => by
    simp only [List.map_cons, processIncludesWith]
    rcases hL : pbs inc.file with _ | pb
    · rfl
    · dsimp only
      rcases hF : f pb ws with e | okr
      · rfl
      · obtain ⟨evs, ws2⟩ := okr
        dsimp only
        rw [processIncludesWith_file_only f pbs rest tf wf ws2]

theorem runHosts_congr (p p' : Playbook) (gc : GlobalConfig)
    (tags : Option (List String)) (env : Env)
    (hlc : p'.local_config = p.local_config) (hts : p'.tasks = p.tasks) :
    ∀ (hs : List Host) (ws : Worlds),
      runHosts p' gc tags env hs ws = runHosts p gc tags env hs ws
  | [], _ => rfl
  | host :: rest, ws => by
    simp only [runHosts, hlc, hts]
    rcases hH : runHost host gc p.local_config tags env p.tasks [] (ws host.address)
        with e | one
    · rfl
    · obtain ⟨c1, w1, evs1⟩ := one
      dsimp only
      rw [runHosts_congr p p' gc tags env hlc hts rest
        (fun a => if a = host.address then w1 else ws a)]

theorem runLevel_congr (p p' : Playbook) (cfg : HostConfig)
    (tags : Option (List String)) (env : Env) (ws : Worlds)
    (hh : p'.hosts = p.hosts) (hlc : p'.local_config = p.local_config)
    (hts : p'.tasks = p.tasks) :
    runLevel p' cfg tags env ws = runLevel p cfg tags env ws := by
  unfold runLevel matchingHosts
  rw [hh]
  exact runHosts_congr p p' cfg.global_config tags env hlc hts _ ws

/-- C4: a playbook with includes processes them depth-first — every entry of
the include list, in order, is loaded (a missing file aborts with the load
error) and recursively processed to completion, with the same inventory and
requested tag filter, before the playbook's own tasks run — and the
per-include `tags` and `when` fields have no effect: replacing them
arbitrarily leaves the whole processing unchanged. -/
theorem include_depth_first (fuel : Nat) (p : Playbook) (cfg : HostConfig)
    (tags : Option (List String)) (env : Env) (ws : Worlds)
    (incs : List Include) (hinc : p.include_ = some incs) :
    (Playbook.process (fuel + 1) p cfg tags env ws =
      match processIncludesWith
          (fun pb ws2 => Playbook.process fuel pb cfg tags env ws2)
          env.playbooks incs ws with
      | .error e => .error e
      | .ok (evs, ws2) =>
        match runLevel p cfg tags env ws2 with
        | .error e => .error e
        | .ok (evs2, ws3) => .ok (evs ++ evs2, ws3)) ∧
    (∀ (tf : Include → Option (List String)) (wf : Include → Option String),
      Playbook.process (fuel + 1)
          ⟨p.name, some (incs.map fun inc => ⟨inc.file, tf inc, wf inc⟩),
            p.hosts, p.local_config, p.tasks⟩ cfg tags env ws =
        Playbook.process (fuel + 1) p cfg tags env ws) := by
  have hEq : ∀ (q : Playbook) (qincs : List Include), q.include_ = some qincs →
      Playbook.process (fuel + 1) q cfg tags env ws =
        match processIncludesWith
            (fun pb ws2 => Playbook.process fuel pb cfg tags env ws2)
            env.playbooks qincs ws with
        | .error e => .error e
        | .ok (evs, ws2) =>
          match runLevel q cfg tags env ws2 with
          | .error e => .error e
          | .ok (evs2, ws3) => .ok (evs ++ evs2, ws3) := by
    intro q qincs hq
    simp only [Playbook.process, hq]
  refine ⟨hEq p incs hinc, ?_⟩
  intro tf wf
  set p' : Playbook :=
    ⟨p.name, some (incs.map fun inc => ⟨inc.file, tf inc, wf inc⟩),
      p.hosts, p.local_config, p.tasks⟩ with hp'
  rw [hEq p' (incs.map fun inc => ⟨inc.file, tf inc, wf inc⟩) rfl,
    hEq p incs hinc,
    processIncludesWith_file_only
      (fun pb ws2 => Playbook.process fuel pb cfg tags env ws2) env.playbooks
      incs tf wf ws]
  rcases hI : processIncludesWith
      (fun pb ws2 => Playbook.process fuel pb cfg tags env ws2)
      env.playbooks incs ws with e | okr
  · rfl
  · obtain ⟨evs, ws2⟩ := okr
    dsimp only
    rw [runLevel_congr p p' cfg tags env ws2 rfl rfl rfl]

/-- Witness for `include_depth_first`: at a concrete playbook with one
include entry, changing the include's `tags`/`when` fields does not change
processing. -/
theorem include_depth_first_witness :
    Playbook.process 2
        ⟨none, some [⟨"inc.yml", some ["x"], some "cond"⟩], ["h1"], none, []⟩
        ⟨⟨"root", "id"⟩, []⟩ none
        ⟨fun f => if f = "inc.yml" then some ⟨none, none, [], none, []⟩ else none,
          fun _ => ⟨fun _ => .ok (), fun _ => true, fun _ _ => .ok (), fun _ => .ok ""⟩,
          fun _ => none, fun t _ => .ok t⟩ (fun _ _ => none) =
      Playbook.process 2
        ⟨none, some [⟨"inc.yml", none, none⟩], ["h1"], none, []⟩
        ⟨⟨"root", "id"⟩, []⟩ none
        ⟨fun f => if f = "inc.yml" then some ⟨none, none, [], none, []⟩ else none,
          fun _ => ⟨fun _ => .ok (), fun _ => true, fun _ _ => .ok (), fun _ => .ok ""⟩,
          fun _ => none, fun t _ => .ok t⟩ (fun _ _ => none) :=
  (include_depth_first 1
      ⟨none, some [⟨"inc.yml", none, none⟩], ["h1"], none, []⟩
      ⟨⟨"root", "id"⟩, []⟩ none
      ⟨fun f => if f = "inc.yml" then some ⟨none, none, [], none, []⟩ else none,
        fun _ => ⟨fun _ => .ok (), fun _ => true, fun _ _ => .ok (), fun _ => .ok ""⟩,
        fun _ => none, fun t _ => .ok t⟩ (fun _ _ => none)
      [⟨"inc.yml", none, none⟩] rfl).2
    (fun _ => some ["x"]) (fun _ => some "cond")

theorem replaceAllList_stable (pat rep : List Char) :
    ∀ (fuel : Nat) (s : List Char), ¬ pat <:+: s →
      replaceAllList pat rep fuel s = s
  | 0, s, _ => rfl
  | _ + 1, [], _ => rfl
  | fuel + 1, c :: rest, hinf => by
    have hpre : ¬ (pat ≠ [] ∧ pat.isPrefixOf (c :: rest)) := by
      rintro ⟨_, hp⟩
      exact hinf ( List.isPrefixOf_iff_prefix.mp hp).isInfix
    simp only [replaceAllList, if_neg hpre]
    rw [replaceAllList_stable pat rep fuel rest
      (fun h2 => hinf ( List.infix_cons h2))]

theorem replaceAll_stable (pat rep s : String)
    (h : ¬ pat.data <:+: s.data) : replaceAll pat rep s = s := by
  unfold replaceAll
  rw [replaceAllList_stable pat.data rep.data s.data.length s.data h]

/-- Counterexample to C6 as stated: the `SearchReplace` task with pattern
`"a"` and replacement `"aa"` on a file containing `"a"` writes `"aa"`;
running the same task a second time reports `Changed` (not `Unchanged`) and
rewrites the file to `"aaaa"`, which differs from the first run's output. -/
theorem searchReplace_second_run_changed :
    execWorld ((TaskKind.searchReplace "sr" "f" "a" "aa" "").execute_on_host
        ⟨"h1", none, none⟩ [] ⟨"root", "id"⟩ none
        ⟨fun _ => .ok (), fun _ => true, fun _ _ => .ok (), fun _ => .ok ""⟩
        (fun _ => none) (fun t _ => .ok t)
        (fun p => if p = "f" then some "a" else none)) "f" = some "aa" ∧
    execResult ((TaskKind.searchReplace "sr" "f" "a" "aa" "").execute_on_host
        ⟨"h1", none, none⟩ [] ⟨"root", "id"⟩ none
        ⟨fun _ => .ok (), fun _ => true, fun _ _ => .ok (), fun _ => .ok ""⟩
        (fun _ => none) (fun t _ => .ok t)
        (execWorld ((TaskKind.searchReplace "sr" "f" "a" "aa" "").execute_on_host
          ⟨"h1", none, none⟩ [] ⟨"root", "id"⟩ none
          ⟨fun _ => .ok (), fun _ => true, fun _ _ => .ok (), fun _ => .ok ""⟩
          (fun _ => none) (fun t _ => .ok t)
          (fun p => if p = "f" then some "a" else none)))) =
      some (.Changed ⟨"h1", none, none⟩ (.searchReplace "sr" "f" "a" "aa" "")) ∧
    execWorld ((TaskKind.searchReplace "sr" "f" "a" "aa" "").execute_on_host
        ⟨"h1", none, none⟩ [] ⟨"root", "id"⟩ none
        ⟨fun _ => .ok (), fun _ => true, fun _ _ => .ok (), fun _ => .ok ""⟩
        (fun _ => none) (fun t _ => .ok t)
        (execWorld ((TaskKind.searchReplace "sr" "f" "a" "aa" "").execute_on_host
          ⟨"h1", none, none⟩ [] ⟨"root", "id"⟩ none
          ⟨fun _ => .ok (), fun _ => true, fun _ _ => .ok (), fun _ => .ok ""⟩
          (fun _ => none) (fun t _ => .ok t)
          (fun p => if p = "f" then some "a" else none)))) "f" = some "aaaa" :=
  ⟨by decide, by decide, by decide⟩

/-- C6 (amended): a second run of the same `SearchReplace` task reports
`Unchanged` and leaves the file byte-identical to the first run's output
provided the substitution is stable on that output — in particular whenever
the search pattern no longer occurs in it.  (When the replacement
re-introduces the pattern, as in `searchReplace_second_run_changed`, the
second run reports `Changed` and rewrites the file again.) -/
theorem searchReplace_idem_amended (host : Host) (ctx : Ctx)
    (gc : GlobalConfig) (lc : Option GlobalConfig) (sess : Session)
    (lf : String → Option String) (rt : String → Ctx → Except ExecErr String)
    (w : RemoteWorld) (n path pat rep res contents : String)
    (hauth : authenticate sess (effectiveUser host gc) (effectiveKey host gc) = .ok ())
    (hw : w path = some contents)
    (hstable : ¬ pat.data <:+: (replaceAll pat rep contents).data) :
    execWorld ((TaskKind.searchReplace n path pat rep res).execute_on_host
        host ctx gc lc sess lf rt w) path = some (replaceAll pat rep contents) ∧
    (TaskKind.searchReplace n path pat rep res).execute_on_host host ctx gc lc
        sess lf rt (execWorld ((TaskKind.searchReplace n path pat rep res).execute_on_host
          host ctx gc lc sess lf rt w)) =
      .ok (.Unchanged host (.searchReplace n path pat rep res),
        .searchReplace n path pat rep res,
        updateFile (execWorld ((TaskKind.searchReplace n path pat rep res).execute_on_host
          host ctx gc lc sess lf rt w)) path (replaceAll pat rep contents)) ∧
    execWorld ((TaskKind.searchReplace n path pat rep res).execute_on_host host ctx gc lc
        sess lf rt (execWorld ((TaskKind.searchReplace n path pat rep res).execute_on_host
          host ctx gc lc sess lf rt w))) path = some (replaceAll pat rep contents) := by
  have hw1 : execWorld ((TaskKind.searchReplace n path pat rep res).execute_on_host
      host ctx gc lc sess lf rt w) = updateFile w path (replaceAll pat rep contents) := by
    simp only [TaskKind.execute_on_host, hauth, hw]
    by_cases hc : contents = replaceAll pat rep contents
    · rw [if_pos hc]
      rfl
    · rw [if_neg hc]
      rfl
  have hread : updateFile w path (replaceAll pat rep contents) path =
      some (replaceAll pat rep contents) := by
    simp [updateFile]
  have hstab2 : replaceAll pat rep (replaceAll pat rep contents) =
      replaceAll pat rep contents := replaceAll_stable pat rep _ hstable
  refine ⟨by rw [hw1]; exact hread, ?_, ?_⟩
  · rw [hw1]
    simp only [TaskKind.execute_on_host, hauth, hread]
    rw [hstab2, if_pos rfl, ← hw1]
  · rw [hw1]
    simp only [TaskKind.execute_on_host, hauth, hread]
    rw [hstab2, if_pos rfl]
    simp [execWorld, updateFile]

/-- Witness for `searchReplace_idem_amended`: replacing `"a"` by `"b"` in a
file containing `"a"` is stable, so the second run is `Unchanged`. -/
theorem searchReplace_idem_amended_witness :
    execWorld ((TaskKind.searchReplace "sr" "f" "a" "b" "").execute_on_host
        ⟨"h1", none, none⟩ [] ⟨"root", "id"⟩ none
        ⟨fun _ => .ok (), fun _ => true, fun _ _ => .ok (), fun _ => .ok ""⟩
        (fun _ => none) (fun t _ => .ok t)
        (fun p => if p = "f" then some "a" else none)) "f" = some (replaceAll "a" "b" "a") := by
  have h := searchReplace_idem_amended ⟨"h1", none, none⟩ [] ⟨"root", "id"⟩ none
    ⟨fun _ => .ok (), fun _ => true, fun _ _ => .ok (), fun _ => .ok ""⟩
    (fun _ => none) (fun t _ => .ok t)
    (fun p => if p = "f" then some "a" else none)
    "sr" "f" "a" "b" "" "a" rfl (by decide) (by decide)
  exact h.1

theorem processIncludesWith_events
    (f : Playbook → Worlds → Except ProcErr (List Event × Worlds))
    (pbs : String → Option Playbook) (P : Event → Prop)
    (hf : ∀ pb ws evs ws2, f pb ws = .ok (evs, ws2) → ∀ e ∈ evs, P e) :
    ∀ (incs : List Include) (ws : Worlds) (evs : List Event) (ws2 : Worlds),
      processIncludesWith f pbs incs ws = .ok (evs, ws2) → ∀ e ∈ evs, P e
  | [], ws, evs, ws2, h => by
    simp only [processIncludesWith, Except.ok.injEq, Prod.mk.injEq] at h
    rw [← h.1]
    intro e he
    simp at he
  | inc :: rest, ws, evs, ws2, h => by
    simp only [processIncludesWith] at h
    rcases hL : pbs inc.file with _ | pb
    · rw [hL] at h
      simp at h
    · rw [hL] at h
      dsimp only at h
      rcases hF : f pb ws with e | okr
      · rw [hF] at h
        simp at h
      · obtain ⟨evs1, wsmid⟩ := okr
        rw [hF] at h
        dsimp only at h
        rcases hR : processIncludesWith f pbs rest wsmid with e | okr2
        · rw [hR] at h
          simp at h
        · obtain ⟨evs2, wsend⟩ := okr2
          rw [hR] at h
          simp only [Except.ok.injEq, Prod.mk.injEq] at h
          rw [← h.1]
          intro e he
          rcases List.mem_append.mp he with he1 | he2
          · exact hf pb ws evs1 wsmid hF e he1
          · exact processIncludesWith_events f pbs P hf rest wsmid evs2 wsend hR e he2

theorem runLevel_events (p : Playbook) (cfg : HostConfig)
    (tags : Option (List String)) (env : Env) (ws : Worlds)
    (evs : List Event) (ws2 : Worlds)
    (h : runLevel p cfg tags env ws = .ok (evs, ws2)) :
    ∀ e ∈ evs, e.result.isFailed = false := by
  intro e he
  exact (runHosts_events p cfg.global_config tags env (matchingHosts p cfg)
    ws evs ws2 h e he).2

theorem process_events_notFailed :
    ∀ (fuel : Nat) (p : Playbook) (cfg : HostConfig)
      (tags : Option (List String)) (env : Env) (ws : Worlds)
      (evs : List Event) (ws2 : Worlds),
      Playbook.process fuel p cfg tags env ws = .ok (evs, ws2) →
      ∀ e ∈ evs, e.result.isFailed = false
  | 0, p, cfg, tags, env, ws, evs, ws2, h => by
    simp [Playbook.process] at h
  | fuel + 1, p, cfg, tags, env, ws, evs, ws2, h => by
    simp only [Playbook.process] at h
    rcases hinc : p.include_ with _ | incs
    · rw [hinc] at h
      dsimp only at h
      rcases hL : runLevel p cfg tags env ws with e | okr
      · rw [hL] at h
        simp at h
      · obtain ⟨evs2', ws3⟩ := okr
        rw [hL] at h
        simp only [Except.ok.injEq, Prod.mk.injEq] at h
        rw [← h.1]
        intro e he
        simp only [List.nil_append] at he
        exact runLevel_events p cfg tags env ws evs2' ws3 hL e he
    · rw [hinc] at h
      dsimp only at h
      rcases hI : processIncludesWith
          (fun pb ws2 => Playbook.process fuel pb cfg tags env ws2)
          env.playbooks incs ws with e | okr
      · rw [hI] at h
        simp at h
      · obtain ⟨evs1, wsmid⟩ := okr
        rw [hI] at h
        dsimp only at h
        rcases hL : runLevel p cfg tags env wsmid with e | okr2
        · rw [hL] at h
          simp at h
        · obtain ⟨evs2', ws3⟩ := okr2
          rw [hL] at h
          simp only [Except.ok.injEq, Prod.mk.injEq] at h
          rw [← h.1]
          intro e he
          rcases List.mem_append.mp he with he1 | he2
          · exact processIncludesWith_events
              (fun pb ws2 => Playbook.process fuel pb cfg tags env ws2)
              env.playbooks (fun e2 => e2.result.isFailed = false)
              (fun pb wsx evsx wsy hx =>
                process_events_notFailed fuel pb cfg tags env wsx evsx wsy hx)
              incs ws evs1 wsmid hI e he1
          · exact runLevel_events p cfg tags env wsmid evs2' ws3 hL e he2

/-- C7: the `Failed` result variant is unreachable — a successful
`execute_on_host` never returns it, a task-execution error aborts the whole
worker (and with it the process) instead of producing a result, and hence
no event of any successful `process` run carries a `Failed` result or would
register the value `"failed"`. -/
theorem failed_unreachable :
    (∀ (k : TaskKind) (host : Host) (ctx : Ctx) (gc : GlobalConfig)
        (lc : Option GlobalConfig) (sess : Session) (lf : String → Option String)
        (rt : String → Ctx → Except ExecErr String) (w : RemoteWorld)
        (r : TaskResult),
      execResult (k.execute_on_host host ctx gc lc sess lf rt w) = some r →
      r.isFailed = false) ∧
    (∀ (host : Host) (gc : GlobalConfig) (lc : Option GlobalConfig)
        (tags : Option (List String)) (env : Env) (t : Task) (ctx : Ctx)
        (w : RemoteWorld) (e : ExecErr) (rest : List Task),
      runTask host gc lc tags env t ctx w = .error e →
      runHost host gc lc tags env (t :: rest) ctx w = .error (.execError e)) ∧
    (∀ (fuel : Nat) (p : Playbook) (cfg : HostConfig)
        (tags : Option (List String)) (env : Env) (ws : Worlds) (e : Event),
      e ∈ procEvents (Playbook.process fuel p cfg tags env ws) →
      e.result.isFailed = false ∧ e.result.register_value ≠ "failed") := by
  refine ⟨?_, ?_, ?_⟩
  · intro k host ctx gc lc sess lf rt w r h
    rcases hE : k.execute_on_host host ctx gc lc sess lf rt w with e | trip
    · rw [hE] at h
      simp [execResult] at h
    · obtain ⟨r2, k2, w2⟩ := trip
      rw [hE] at h
      simp only [execResult, Option.some.injEq] at h
      rw [← h]
      exact execute_ok_not_failed k host ctx gc lc sess lf rt w r2 k2 w2 hE
  · intro host gc lc tags env t ctx w e rest h
    simp only [runHost, h]
  · intro fuel p cfg tags env ws e he
    rcases hP : Playbook.process fuel p cfg tags env ws with er | okr
    · rw [hP] at he
      simp [procEvents] at he
    · obtain ⟨evs, ws2⟩ := okr
      rw [hP] at he
      simp only [procEvents] at he
      have hnf := process_events_notFailed fuel p cfg tags env ws evs ws2 hP e he
      refine ⟨hnf, ?_⟩
      cases hr : e.result with
      | Changed h2 k2 => simp [TaskResult.register_value]
      | Unchanged h2 k2 => simp [TaskResult.register_value]
      | Failed h2 k2 => rw [hr] at hnf; simp [TaskResult.isFailed] at hnf

/-- Witness for `failed_unreachable`: the single event of a concrete one-task
run is not `Failed` and registers `"changed"`, not `"failed"`. -/
theorem failed_unreachable_witness :
    (TaskResult.Changed ⟨"h1", none, none⟩ (.shell "s" "c" "out")).isFailed = false ∧
    (TaskResult.Changed ⟨"h1", none, none⟩ (.shell "s" "c" "out")).register_value ≠ "failed" :=
  failed_unreachable.2.2 1
    ⟨some "p", none, ["h1"], none, [⟨.shell "s" "c" "", none, some "r", none⟩]⟩
    ⟨⟨"root", "id"⟩, [⟨"h1", none, none⟩]⟩ none
    ⟨fun _ => none,
      fun _ => ⟨fun _ => .ok (), fun _ => true, fun _ _ => .ok (), fun _ => .ok "out"⟩,
      fun _ => none, fun t _ => .ok t⟩
    (fun _ _ => none)
    ⟨⟨"h1", none, none⟩, ⟨.shell "s" "c" "", none, some "r", none⟩,
      .Changed ⟨"h1", none, none⟩ (.shell "s" "c" "out")⟩
    (by decide)

end Ansimple
